import Mathlib

/-!
Verification of the Mini-Shell command evaluator (`src/cmd.c`) against its
natural-language specification.

The development is a shallow embedding of `cmd.c`:

* C strings are `List Char`; `word_t` part lists are `Word` (first part plus
  following parts), with `get_word` the concatenation of the parts.
* The OS is an oracle record `World` (file-open outcomes per path, `chdir`
  success, `execvp` behaviour, `setenv` success).  The oracle is static: the
  model does not track file contents, and a file created by a redirection does
  not change the oracle seen by a later open.  No settled claim depends on
  that.
* Process-visible state is `St`: the current process id, the three standard
  stream bindings, the working directory, a fresh-pid counter, the list of
  spawned-and-unreaped children with their (low-byte) exit statuses, and an
  append-only event log.  The event log is instrumentation: it records entry
  into `parse_simple` and every `fprintf` the C code performs, so that the
  theorems can speak about what was and was not evaluated and printed.
* An evaluation outcome `Out` is either `.ret r st` — the function returned —
  or `.died st` — the process aborted via the `DIE` macro.  A returned value
  of `none` stands for an int whose value the C code leaves unspecified
  (e.g. `WEXITSTATUS` of a wait status that a failed `waitpid` never filled
  in).  Where the C code compares such an unspecified int against a specific
  constant (`ret == SHELL_EXIT`), the model takes the comparison to be false.
* `fork` is modelled by running the child subtree to completion on a copy of
  the parent state; the child's exit int, truncated to its low byte as
  `exit`/`wait` do, is recorded in the parent's zombie list.  A leaf's
  `wait(&wstatus)` is modelled as reaping the child that leaf just spawned
  (a deterministic refinement of wait-for-any).  `waitpid(p, ...)` with
  `p ≤ 0` (a process-group wait) or with `p` naming no unreaped child leaves
  the wait status unspecified.
-/

/-- A C string, as the list of its characters (NUL excluded). -/
abbrev CStr := List Char

/-- Modelled from the spec: `word_t` (declared in the absent `cmd.h`) is a
resolved word made of a first string part and the following parts; the spec
describes a word as "a resolved string value ... produced by concatenating
parts". -/
structure Word where
  first : CStr
  rest : List CStr
deriving DecidableEq, Repr

/-- Modelled from the spec: `get_word` (in the absent `utils.c`) resolves a
word to the concatenation of its parts. -/
def get_word (w : Word) : CStr :=
  w.first ++ w.rest.flatten

/-- The constant `EXIT_SUCCESS` (0). -/
def EXIT_SUCCESS : Int := 0

/-- The constant `EXIT_FAILURE` (1). -/
def EXIT_FAILURE : Int := 1

/-- Modelled from the spec: `SHELL_EXIT` is defined in the absent `cmd.h`;
the spec calls it "a distinguished result value meaning terminate the
interactive session", distinct from ordinary success/failure.  The theorems
only use that it differs from every byte-sized exit status and is not a
positive process id. -/
def SHELL_EXIT : Int := -100

/-- The function `split_env_command` from `cmd.c`: scan for the first `=`, split the
string there.  The C loop `while (*p != '=') p++;` has no bound check: on a
string with no `=` it reads past the terminator, which the model renders as
`none` (undefined). -/
def split_env_command : CStr → Option (CStr × CStr)
  | [] => none
  | c :: rest =>
    if c = '=' then some ([], rest)
    else (split_env_command rest).map (fun p => (c :: p.1, p.2))

/-- How a path answers `open(2)` in the oracle: `present` — a plain open
succeeds; `absent` — a plain open fails (ENOENT) but an `O_CREAT` open
succeeds; `forbidden` — every open fails (e.g. EACCES). -/
inductive PathState
  | present
  | absent
  | forbidden
deriving DecidableEq, Repr

/-- Outcome of `execvp` in the oracle: the command is not found (ENOENT),
fails to exec for another reason, or runs and exits with the given status. -/
inductive ExecRes
  | notFound
  | failOther
  | runs (status : Nat)
deriving DecidableEq, Repr

/-- The OS oracle: per-path open behaviour, `chdir` success per target,
`execvp` behaviour per command word, `setenv` success per name/value. -/
structure World where
  pathState : CStr → PathState
  chdirOk : CStr → Bool
  execOf : CStr → ExecRes
  setenvOk : CStr → CStr → Bool

/-- The open mode `parse_simple` passes to `redirect`: the `flag` argument
values `O_WRONLY`, `O_APPEND`, `O_RDONLY` of the C switch. -/
inductive RFlag
  | wronly
  | append
  | rdonly
deriving DecidableEq, Repr

/-- What a standard-stream slot can refer to. -/
inductive FdTarget
  | inherited (slot : Nat)
  | file (path : CStr) (flag : RFlag)
  | fileCreated (path : CStr)
  | pipeRd (n : Nat)
  | pipeWr (n : Nat)
deriving DecidableEq, Repr

/-- Result of the open phase of `redirect`: success (recording whether the
`O_CREAT` retry was used and which target the slot will now hold), or the
process dies via `DIE`. -/
inductive ROut
  | ok (retried : Bool) (target : FdTarget)
  | fatal
deriving DecidableEq, Repr

/-- The open logic of `redirect` in `cmd.c`: first `open` without `O_CREAT`
per the flag switch; whenever that returns a negative descriptor — whatever
the flag and whatever the failure cause — retry with
`O_CREAT | O_TRUNC | O_WRONLY, 0644`; `DIE` only if the retry also fails.
A `none` path models `redirect` being handed a NULL string (both opens fail,
neither with a created file). -/
def redirectOpen (w : World) (file : Option CStr) (flag : RFlag) : ROut :=
  match file with
  | none => .fatal
  | some path =>
    match w.pathState path with
    | .present => .ok false (.file path flag)
    | .absent => .ok true (.fileCreated path)
    | .forbidden => .fatal

/-- The constant `STDIN_FILENO`. -/
def STDIN_FILENO : Nat := 0

/-- The constant `STDOUT_FILENO`. -/
def STDOUT_FILENO : Nat := 1

/-- The constant `STDERR_FILENO`. -/
def STDERR_FILENO : Nat := 2

/-- The three standard-stream slots of one process. -/
structure Fds where
  fdStdin : FdTarget
  fdStdout : FdTarget
  fdStderr : FdTarget
deriving DecidableEq, Repr

/-- A full call to `redirect(old_fd, file, flag)`: run the open logic, then
`dup2` the new descriptor onto the slot and close the temporary (the
slot simply takes the new target); `none` is the `DIE` outcome. -/
def redirFd (w : World) (fds : Fds) (slot : Nat) (file : Option CStr) (flag : RFlag) : Option Fds :=
  match redirectOpen w file flag with
  | .fatal => none
  | .ok _ t =>
    if slot = STDIN_FILENO then some {fds with fdStdin := t}
    else if slot = STDOUT_FILENO then some {fds with fdStdout := t}
    else some {fds with fdStderr := t}

/-- Messages the evaluator prints: the `strerror(errno)` line, `pwd`'s
directory line, and the `Execution failed for '...'` line. -/
inductive Msg
  | errnoMsg
  | pwdMsg (dir : CStr)
  | execFailMsg (cmd : CStr)
deriving DecidableEq, Repr

/-- Instrumentation events: entry into `parse_simple` (with the process id,
the leaf's identifier and the stream bindings at entry), and each `fprintf`
with the stream target it went to. -/
inductive Ev
  | ranLeaf (pid : Nat) (id : Nat) (fds : Fds)
  | printed (pid : Nat) (target : FdTarget) (m : Msg)
deriving DecidableEq, Repr

/-- Process-visible evaluation state: current process id, standard streams,
working directory, fresh counters for process and pipe identities, the
spawned-and-unreaped children with their low-byte exit statuses (`none` when
the child aborted or its status is otherwise unspecified), and the global
append-only event log. -/
structure St where
  curPid : Nat
  fds : Fds
  cwd : CStr
  nextPid : Nat
  nextPipe : Nat
  zombies : List (Nat × Option Nat)
  events : List Ev
deriving DecidableEq, Repr

/-- Evaluation outcome: the function returned (`none` = an int the C code
leaves unspecified), or the process aborted through `DIE`. -/
inductive Out
  | ret (r : Option Int) (st : St)
  | died (st : St)
deriving DecidableEq, Repr

/-- Final state of an outcome. -/
def Out.st : Out → St
  | .ret _ s => s
  | .died s => s

/-- Returned value of an outcome (`none` also for an aborted process). -/
def Out.res : Out → Option Int
  | .ret r _ => r
  | .died _ => none

/-- The low byte of an exit argument, as `exit`/`WEXITSTATUS` see it. -/
def exitByte (v : Int) : Nat :=
  (v.emod 256).toNat

/-- The wait status a parent receives for a finished child: the child's
returned int truncated to its low byte, `none` if the child aborted. -/
def exitStat : Out → Option Nat
  | .ret r _ => r.map exitByte
  | .died _ => none

/-- Look a pid up in the zombie list. -/
def lookupZ : List (Nat × Option Nat) → Nat → Option (Option Nat)
  | [], _ => none
  | (q, s) :: t, p => if q = p then some s else lookupZ t p

/-- Remove the first entry for a pid from the zombie list. -/
def removeZ : List (Nat × Option Nat) → Nat → List (Nat × Option Nat)
  | [], _ => []
  | (q, s) :: t, p => if q = p then t else (q, s) :: removeZ t p

/-- The call `waitpid(p, &wstatus, 0)` followed by `WEXITSTATUS(wstatus)`.  With
`p ≤ 0` the call is a process-group wait whose choice of child is
scheduling-dependent, and with `p` naming no unreaped child the call fails
and leaves `wstatus` untouched; both leave the resulting int unspecified
(`none`). -/
def waitpidM (p : Int) (st : St) : Option Nat × St :=
  if p ≤ 0 then (none, st)
  else
    match lookupZ st.zombies p.toNat with
    | some s => (s, {st with zombies := removeZ st.zombies p.toNat})
    | none => (none, st)

/-- The wait on a pid value that is itself possibly unspecified. -/
def waitpidR (r : Option Int) (st : St) : Option Nat × St :=
  match r with
  | none => (none, st)
  | some p => waitpidM p st

/-- State a forked child starts from: the parent's streams (possibly
overridden by the caller), directory and counters, its own fresh pid, and no
children of its own.  The event log is global and carries over. -/
def childSt (st : St) (fds : Fds) : St :=
  { curPid := st.nextPid,
    fds := fds,
    cwd := st.cwd,
    nextPid := st.nextPid + 1,
    nextPipe := st.nextPipe,
    zombies := [],
    events := st.events }

/-- Parent state after a child forked at `st.nextPid` ran to completion with
outcome `o`: the counters and the event log advance to the child's, the
child's own state is otherwise discarded, and the child joins the parent's
zombie list with its exit byte. -/
def afterFork (st : St) (o : Out) : St :=
  { st with
    nextPid := o.st.nextPid,
    nextPipe := o.st.nextPipe,
    events := o.st.events,
    zombies := st.zombies ++ [(st.nextPid, exitStat o)] }

/-- The function `shell_cd` from `cmd.c`: `return chdir(dir->string);` — it uses only the
word's first part, and its `bool` return converts `chdir`'s `-1` to `true`
(and success `0` to `false`).  Returns the failure flag and the resulting
working directory. -/
def shell_cd (w : World) (dir : Word) (cwd : CStr) : Bool × CStr :=
  if w.chdirOk dir.first then (false, dir.first) else (true, cwd)

/-- The struct `simple_command_t`: the fields of the parsed simple command that
`parse_simple` consults.  `verb` is the command word, `params` the first
parameter word (as `shell_cd` uses it), `inw`/`out`/`err` the redirect
words, `io_flags` the combination flag.  Modelled from the spec where the
struct's declaration (`cmd.h`) is absent from `src`. -/
structure simple_command where
  verb : Word
  params : Option Word
  inw : Option Word
  out : Option Word
  err : Option Word
  io_flags : Nat
deriving DecidableEq, Repr

/-- The `switch (s->io_flags)` redirection block of `parse_simple`,
returning the new stream bindings, or `none` when a `redirect` call hit
`DIE`. -/
def ioRedirs (w : World) (s : simple_command) (file_out file_err : Option CStr) (fds : Fds) : Option Fds :=
  match s.io_flags with
  | 3 => do
    let f1 ← redirFd w fds STDOUT_FILENO file_out .append
    redirFd w f1 STDERR_FILENO file_err .append
  | 2 => do
    let f1 ← if s.out.isSome then redirFd w fds STDOUT_FILENO file_out .wronly else some fds
    redirFd w f1 STDERR_FILENO file_err .append
  | 1 => do
    let f1 ← if s.err.isSome then redirFd w fds STDERR_FILENO file_err .wronly else some fds
    redirFd w f1 STDOUT_FILENO file_out .append
  | 0 =>
    if s.out.isSome ∨ s.err.isSome then
      if s.out.isSome ∧ s.err.isSome ∧ file_out = file_err then do
        let f1 ← redirFd w fds STDOUT_FILENO file_out .wronly
        let f2 ← redirFd w f1 STDOUT_FILENO file_out .append
        redirFd w f2 STDERR_FILENO file_err .append
      else do
        let f1 ← if s.out.isSome then redirFd w fds STDOUT_FILENO file_out .wronly else some fds
        if s.err.isSome then redirFd w f1 STDERR_FILENO file_err .wronly else some f1
    else some fds
  | _ => some fds

/-- The common tail of `parse_simple` (label `exit_func`): free the resolved
words (no-ops here) and restore the three standard streams from the copies
saved at entry, then return `r`. -/
def exit_func (r : Option Int) (stdin_copy stdout_copy stderr_copy : FdTarget) (st : St) : Out :=
  .ret r {st with fds := ⟨stdin_copy, stdout_copy, stderr_copy⟩}

/-- The function `parse_simple` from `cmd.c`.  `isPipeRight` stands for the C test
`s->up->up && s->up->up->op == OP_PIPE && s->up->up->cmd2->scmd == s`
(this leaf is the direct right child of a pipe node); the caller
`parse_command` supplies it from the tree shape, which is exactly what the
`up` back-links encode.  The `wait(&wstatus)` of the external-command branch
is modelled as reaping the child this very leaf just spawned — a
deterministic refinement of wait-for-any-child. -/
def parse_simple (w : World) (id : Nat) (s : simple_command) (isPipeRight : Bool) (st0 : St) : Out :=
  let stdin_copy := st0.fds.fdStdin
  let stdout_copy := st0.fds.fdStdout
  let stderr_copy := st0.fds.fdStderr
  let file_in := s.inw.map get_word
  let file_out := s.out.map get_word
  let file_err := s.err.map get_word
  let args0 := get_word s.verb
  let st := {st0 with events := st0.events ++ [.ranLeaf st0.curPid id st0.fds]}
  if args0 = "exit".data ∨ args0 = "quit".data then
    exit_func (some SHELL_EXIT) stdin_copy stdout_copy stderr_copy st
  else
    match ioRedirs w s file_out file_err st.fds with
    | none => .died st
    | some fds1 =>
    let st := {st with fds := fds1}
    if args0 = "cd".data then
      match s.params with
      | none => exit_func (some EXIT_SUCCESS) stdin_copy stdout_copy stderr_copy st
      | some dir =>
        let r := shell_cd w dir st.cwd
        let st := {st with cwd := r.2}
        let ret : Int := if r.1 then 1 else 0
        if ret < 0 then
          exit_func (some EXIT_FAILURE) stdin_copy stdout_copy stderr_copy
            {st with events := st.events ++ [.printed st.curPid st.fds.fdStderr .errnoMsg]}
        else
          exit_func (some ret) stdin_copy stdout_copy stderr_copy st
    else if args0 = "pwd".data then
      exit_func (some EXIT_SUCCESS) stdin_copy stdout_copy stderr_copy
        {st with events := st.events ++ [.printed st.curPid st.fds.fdStdout (.pwdMsg st.cwd)]}
    else if s.verb.rest.head? = some ("=".data) then
      match split_env_command args0 with
      | none => .died st
      | some pr =>
        let ret : Int := if w.setenvOk pr.1 pr.2 then 0 else -1
        if ret < 0 then
          exit_func (some EXIT_FAILURE) stdin_copy stdout_copy stderr_copy
            {st with events := st.events ++ [.printed st.curPid st.fds.fdStderr .errnoMsg]}
        else
          exit_func (some ret) stdin_copy stdout_copy stderr_copy st
    else
      let cpid := st.nextPid
      let childOut : Option Nat × List Ev :=
        match (if s.inw.isSome then redirFd w st.fds STDIN_FILENO file_in .rdonly else some st.fds) with
        | none => (none, st.events)
        | some cfds =>
          match w.execOf args0 with
          | .runs k => (some (k % 256), st.events)
          | .notFound => (some (exitByte EXIT_FAILURE),
              st.events ++ [.printed cpid cfds.fdStderr (.execFailMsg args0)])
          | .failOther => (some (exitByte EXIT_FAILURE), st.events)
      let st := {st with nextPid := st.nextPid + 1, events := childOut.2}
      if isPipeRight then
        let st := {st with zombies := st.zombies ++ [(cpid, childOut.1)]}
        exit_func (some (Int.ofNat cpid)) stdin_copy stdout_copy stderr_copy st
      else
        exit_func (childOut.1.map Int.ofNat) stdin_copy stdout_copy stderr_copy st

/-- Operator tags of `command_t`. -/
inductive Op
  | sequential
  | parallel
  | pipe
  | condNZero
  | condZero
  | dummy
deriving DecidableEq, Repr

/-- The struct `command_t`: a leaf (an `OP_NONE` node wrapping a `simple_command_t`,
with a `Nat` identifier added as instrumentation) or an operator node with
two children. -/
inductive Cmd
  | leaf (id : Nat) (s : simple_command)
  | node (op : Op) (c1 c2 : Cmd)
deriving DecidableEq, Repr

/-- The `OP_SEQUENTIAL` case of `parse_command`: run the left subtree; if it
returned `SHELL_EXIT`, return `SHELL_EXIT` without touching the right
subtree, otherwise run the right subtree. -/
def seqOp (f1 f2 : St → Out) (st : St) : Out :=
  match f1 st with
  | .died st1 => .died st1
  | .ret r st1 =>
    if r = some SHELL_EXIT then .ret (some SHELL_EXIT) st1
    else f2 st1

/-- The `OP_CONDITIONAL_NZERO` case of `parse_command`: run the left
subtree; if its result is `EXIT_FAILURE` — the literal value 1, not an
arbitrary non-zero status — run and return the right subtree, otherwise
return `EXIT_SUCCESS`. -/
def condNZOp (f1 f2 : St → Out) (st : St) : Out :=
  match f1 st with
  | .died st1 => .died st1
  | .ret r st1 =>
    if r = some EXIT_FAILURE then f2 st1
    else .ret (some EXIT_SUCCESS) st1

/-- The `OP_CONDITIONAL_ZERO` case of `parse_command`: run the left subtree;
if its result is `EXIT_SUCCESS` run and return the right subtree, otherwise
return `EXIT_FAILURE` (the literal 1, not the left side's own status). -/
def condZOp (f1 f2 : St → Out) (st : St) : Out :=
  match f1 st with
  | .died st1 => .died st1
  | .ret r st1 =>
    if r = some EXIT_SUCCESS then f2 st1
    else .ret (some EXIT_FAILURE) st1

/-- The `OP_PARALLEL` case of `parse_command`: fork a child for each
subtree (each child exits with its subtree's result), wait for both pids,
and return `EXIT_SUCCESS` whatever the two wait statuses were. -/
def parOp (f1 f2 : St → Out) (st : St) : Out :=
  let cpid1 := st.nextPid
  let o1 := f1 (childSt st st.fds)
  let stA := afterFork st o1
  let cpid2 := stA.nextPid
  let o2 := f2 (childSt stA stA.fds)
  let stB := afterFork stA o2
  let wA := waitpidM (Int.ofNat cpid1) stB
  let wB := waitpidM (Int.ofNat cpid2) wA.2
  .ret (some EXIT_SUCCESS) wB.2

/-- The post-fork bump of the pipe-identity counter. -/
def pipeSt1 (st : St) : St :=
  {st with nextPipe := st.nextPipe + 1}

/-- The streams the pipe's left child starts with: the parent's streams with
stdout `dup2`-ed onto the pipe's write end (and both pipe ends then
closed). -/
def pipeLeftFds (st : St) : Fds :=
  {st.fds with fdStdout := .pipeWr st.nextPipe}

/-- The parent's state after forking the pipe's left child with outcome
`o1`: the fork bookkeeping, then the parent's stdin `dup2`-ed onto the
pipe's read end (and both pipe ends closed). -/
def pipeParentSt (st : St) (o1 : Out) : St :=
  {afterFork (pipeSt1 st) o1 with
    fds := {(afterFork (pipeSt1 st) o1).fds with fdStdin := .pipeRd st.nextPipe}}

/-- The `OP_PIPE` case of `parse_command`: save the three streams, create a
pipe, fork the left subtree with its stdout on the pipe's write end (the
child restores its streams and exits with its result — state local to the
discarded child), bind the parent's stdin to the read end, run the right
subtree in the parent, `waitpid` the left child (forked at pid
`st.nextPid`) and then whatever int the right recursion returned, restore
the three saved streams, and return `WEXITSTATUS` of the second wait. -/
def pipeOp (f1 f2 : St → Out) (st : St) : Out :=
  match f2 (pipeParentSt st (f1 (childSt (pipeSt1 st) (pipeLeftFds st)))) with
  | .died st2 => .died st2
  | .ret r2 st2 =>
    let wA := waitpidM (Int.ofNat st.nextPid) st2
    let wB := waitpidR r2 wA.2
    .ret (wB.1.map Int.ofNat)
      {wB.2 with fds := ⟨st.fds.fdStdin, st.fds.fdStdout, st.fds.fdStderr⟩}

/-- The function `parse_command` from `cmd.c`: dispatch on the operator tag, with each
`switch` case given by the operator definitions above.  The `Bool` argument
encodes whether this node is the direct `cmd2` child of a pipe node (the
information the C code recovers from the `up` links); every recursion
passes `false` except the pipe case's right recursion. -/
def parse_command (w : World) : Cmd → Bool → St → Out
  | .leaf id s, isPipeRight, st => parse_simple w id s isPipeRight st
  | .node .sequential c1 c2, _, st =>
    seqOp (fun st1 => parse_command w c1 false st1) (fun st1 => parse_command w c2 false st1) st
  | .node .parallel c1 c2, _, st =>
    parOp (fun st1 => parse_command w c1 false st1) (fun st1 => parse_command w c2 false st1) st
  | .node .condNZero c1 c2, _, st =>
    condNZOp (fun st1 => parse_command w c1 false st1) (fun st1 => parse_command w c2 false st1) st
  | .node .condZero c1 c2, _, st =>
    condZOp (fun st1 => parse_command w c1 false st1) (fun st1 => parse_command w c2 false st1) st
  | .node .pipe c1 c2, _, st =>
    pipeOp (fun st1 => parse_command w c1 false st1) (fun st1 => parse_command w c2 true st1) st
  | .node .dummy _ _, _, st => .ret (some EXIT_SUCCESS) st

/-- The shell's original stream bindings. -/
def fds0 : Fds := ⟨.inherited 0, .inherited 1, .inherited 2⟩

/-- Initial state of the top-level shell process. -/
def initSt : St := ⟨0, fds0, "/".data, 1, 0, [], []⟩

/-- A benign oracle: every path present, every chdir and setenv succeeds,
every command runs and exits 0. -/
def w0 : World := ⟨fun _ => .present, fun _ => true, fun _ => .runs 0, fun _ _ => true⟩

/-- A one-word simple command with no parameters and no redirections. -/
def simpleCmd (name : String) : simple_command :=
  ⟨⟨name.data, []⟩, none, none, none, none, 0⟩

/-- Count how many times a leaf identifier was entered. -/
def ranCount (i : Nat) : List Ev → Nat
  | [] => 0
  | .ranLeaf _ j _ :: t => (if j = i then 1 else 0) + ranCount i t
  | .printed _ _ _ :: t => ranCount i t

/-- The printed lines of the log, with their stream targets. -/
def printedMsgs : List Ev → List (FdTarget × Msg)
  | [] => []
  | .printed _ t m :: r => (t, m) :: printedMsgs r
  | .ranLeaf _ _ _ :: r => printedMsgs r

/-- What any evaluation step does to the ambient process bookkeeping: the
pid counter never goes backwards, the current process id is unchanged, and
the event log only grows. -/
def Extends (st : St) (o : Out) : Prop :=
  st.nextPid ≤ o.st.nextPid ∧ o.st.curPid = st.curPid ∧ ∃ t, o.st.events = st.events ++ t

/-- An oracle whose every path is missing. -/
def wAbsent : World := ⟨fun _ => .absent, fun _ => true, fun _ => .runs 0, fun _ _ => true⟩

/-- A benign oracle except that the command `a` exits with status `n`. -/
def wStat (n : Nat) : World :=
  ⟨fun _ => .present, fun _ => true, fun v => if v = "a".data then .runs n else .runs 0,
   fun _ _ => true⟩

/-- A benign oracle except that every `chdir` fails. -/
def wNoCd : World := ⟨fun _ => .present, fun _ => false, fun _ => .runs 0, fun _ _ => true⟩

/-- The simple command `cd nope`. -/
def cdCmd : simple_command := ⟨⟨"cd".data, []⟩, some ⟨"nope".data, []⟩, none, none, none, 0⟩

/-- The outcome of the first parallel child in the witness instance. -/
def parWitLeft : Out :=
  parse_command (wStat 1) (.leaf 0 (simpleCmd ("a"))) false (childSt initSt initSt.fds)

/-- The outcome of the second parallel child in the witness instance. -/
def parWitRight : Out :=
  parse_command (wStat 1) (.leaf 1 (simpleCmd ("a"))) false
    (childSt (afterFork initSt parWitLeft) (afterFork initSt parWitLeft).fds)

/-- The state in which the right subtree of `Pipe(A, _)` runs: the parent
process after forking the left child over `A` and binding stdin to the
pipe's read end. -/
def pipeRightSt (w : World) (A : Cmd) (st : St) : St :=
  pipeParentSt st (parse_command w A false (childSt (pipeSt1 st) (pipeLeftFds st)))

example : redirectOpen ⟨fun _ => .absent, fun _ => true, fun _ => .runs 0, fun _ _ => true⟩ (some ("f".data)) .rdonly = .ok true (.fileCreated ("f".data)) := by decide

example : split_env_command ("AB=cd".data) = some ("AB".data, "cd".data) := by decide

example : (parse_command w0 (.leaf 0 (simpleCmd ("exit"))) false initSt).res = some SHELL_EXIT := by decide

example : (parse_command w0 (.node .sequential (.leaf 0 (simpleCmd ("exit"))) (.leaf 1 (simpleCmd ("pwd")))) false initSt).res = some SHELL_EXIT := by decide

example : ranCount 1 (parse_command w0 (.node .sequential (.leaf 0 (simpleCmd ("exit"))) (.leaf 1 (simpleCmd ("pwd")))) false initSt).st.events = 0 := by decide

example : (parse_command w0 (.node .condNZero (.leaf 0 (simpleCmd ("exit"))) (.leaf 1 (simpleCmd ("pwd")))) false initSt).res = some EXIT_SUCCESS := by decide

example : (parse_command ⟨fun _ => .present, fun _ => true, fun n => if n = "a".data then .runs 2 else .runs 0, fun _ _ => true⟩ (.node .condNZero (.leaf 0 (simpleCmd ("a"))) (.leaf 1 (simpleCmd ("pwd")))) false initSt).res = some EXIT_SUCCESS := by decide

example : (parse_command w0 (.node .parallel (.leaf 0 (simpleCmd ("exit"))) (.leaf 1 (simpleCmd ("pwd")))) false initSt).res = some EXIT_SUCCESS := by decide

example : ranCount 1 (parse_command w0 (.node .parallel (.leaf 0 (simpleCmd ("exit"))) (.leaf 1 (simpleCmd ("pwd")))) false initSt).st.events = 1 := by decide

example : (parse_command ⟨fun _ => .present, fun _ => true, fun n => if n = "b".data then .runs 7 else .runs 0, fun _ _ => true⟩ (.node .pipe (.leaf 0 (simpleCmd ("a"))) (.leaf 1 (simpleCmd ("b")))) false initSt).res = some 7 := by decide

example : (parse_command w0 (.node .pipe (.leaf 0 (simpleCmd ("a"))) (.leaf 1 (simpleCmd ("pwd")))) false initSt).res = none := by decide

example : (parse_command ⟨fun _ => .present, fun _ => true, fun n => if n = "a".data then .runs 7 else .runs 0, fun _ _ => true⟩ (.leaf 0 (simpleCmd ("a"))) false initSt).res = some 7 := by decide

theorem exit_func_st (r : Option Int) (i o e : FdTarget) (st : St) :
    (exit_func r i o e st).st = {st with fds := ⟨i, o, e⟩} := rfl

theorem waitpidM_shape (p : Int) (st : St) :
    ∃ z, (waitpidM p st).2 = {st with zombies := z} := by
  unfold waitpidM
  split
  · exact ⟨st.zombies, rfl⟩
  · split
    · exact ⟨removeZ st.zombies p.toNat, rfl⟩
    · exact ⟨st.zombies, rfl⟩

theorem waitpidR_shape (r : Option Int) (st : St) :
    ∃ z, (waitpidR r st).2 = {st with zombies := z} := by
  unfold waitpidR
  cases r with
  | none => exact ⟨st.zombies, rfl⟩
  | some p => exact waitpidM_shape p st

theorem parse_simple_ext (w : World) (id : Nat) (s : simple_command) (b : Bool) (st : St) :
    st.nextPid ≤ ((parse_simple w id s b st).st).nextPid ∧
    ((parse_simple w id s b st).st).curPid = st.curPid ∧
    ((parse_simple w id s b st).st).nextPipe = st.nextPipe ∧
    ∃ t, ((parse_simple w id s b st).st).events = st.events ++ .ranLeaf st.curPid id st.fds :: t := by
  simp only [parse_simple]
  repeat' split
  all_goals simp [exit_func, Out.st]

theorem extends_parse_simple (w : World) (id : Nat) (s : simple_command) (b : Bool) (st : St) :
    Extends st (parse_simple w id s b st) := by
  obtain ⟨h1, h2, _, t, h4⟩ := parse_simple_ext w id s b st
  exact ⟨h1, h2, _, h4⟩

theorem extends_seqOp (f1 f2 : St → Out) (h1 : ∀ st, Extends st (f1 st))
    (h2 : ∀ st, Extends st (f2 st)) (st : St) : Extends st (seqOp f1 f2 st) := by
  cases ho : f1 st with
  | died st1 =>
    have h := h1 st
    rw [ho] at h
    unfold seqOp
    rw [ho]
    exact h
  | ret r st1 =>
    have hA := h1 st
    rw [ho] at hA
    obtain ⟨hA1, hA2, tA, hA3⟩ := hA
    unfold seqOp
    rw [ho]
    show Extends st (if r = some SHELL_EXIT then Out.ret (some SHELL_EXIT) st1 else f2 st1)
    split
    · exact ⟨hA1, hA2, tA, hA3⟩
    · obtain ⟨hB1, hB2, tB, hB3⟩ := h2 st1
      refine ⟨Nat.le_trans hA1 hB1, hB2.trans hA2, tA ++ tB, ?_⟩
      rw [hB3]
      have hx : st1.events = st.events ++ tA := hA3
      rw [hx, List.append_assoc]

theorem extends_condNZOp (f1 f2 : St → Out) (h1 : ∀ st, Extends st (f1 st))
    (h2 : ∀ st, Extends st (f2 st)) (st : St) : Extends st (condNZOp f1 f2 st) := by
  cases ho : f1 st with
  | died st1 =>
    have h := h1 st
    rw [ho] at h
    unfold condNZOp
    rw [ho]
    exact h
  | ret r st1 =>
    have hA := h1 st
    rw [ho] at hA
    obtain ⟨hA1, hA2, tA, hA3⟩ := hA
    unfold condNZOp
    rw [ho]
    show Extends st (if r = some EXIT_FAILURE then f2 st1 else Out.ret (some EXIT_SUCCESS) st1)
    split
    · obtain ⟨hB1, hB2, tB, hB3⟩ := h2 st1
      refine ⟨Nat.le_trans hA1 hB1, hB2.trans hA2, tA ++ tB, ?_⟩
      rw [hB3]
      have hx : st1.events = st.events ++ tA := hA3
      rw [hx, List.append_assoc]
    · exact ⟨hA1, hA2, tA, hA3⟩

theorem extends_condZOp (f1 f2 : St → Out) (h1 : ∀ st, Extends st (f1 st))
    (h2 : ∀ st, Extends st (f2 st)) (st : St) : Extends st (condZOp f1 f2 st) := by
  cases ho : f1 st with
  | died st1 =>
    have h := h1 st
    rw [ho] at h
    unfold condZOp
    rw [ho]
    exact h
  | ret r st1 =>
    have hA := h1 st
    rw [ho] at hA
    obtain ⟨hA1, hA2, tA, hA3⟩ := hA
    unfold condZOp
    rw [ho]
    show Extends st (if r = some EXIT_SUCCESS then f2 st1 else Out.ret (some EXIT_FAILURE) st1)
    split
    · obtain ⟨hB1, hB2, tB, hB3⟩ := h2 st1
      refine ⟨Nat.le_trans hA1 hB1, hB2.trans hA2, tA ++ tB, ?_⟩
      rw [hB3]
      have hx : st1.events = st.events ++ tA := hA3
      rw [hx, List.append_assoc]
    · exact ⟨hA1, hA2, tA, hA3⟩

theorem extends_parOp (f1 f2 : St → Out) (h1 : ∀ st, Extends st (f1 st))
    (h2 : ∀ st, Extends st (f2 st)) (st : St) : Extends st (parOp f1 f2 st) := by
  simp only [parOp]
  obtain ⟨hA1, hA2, tA, hA3⟩ := h1 (childSt st st.fds)
  obtain ⟨hB1, hB2, tB, hB3⟩ :=
    h2 (childSt (afterFork st (f1 (childSt st st.fds))) (afterFork st (f1 (childSt st st.fds))).fds)
  obtain ⟨z1, hz1⟩ := waitpidM_shape (Int.ofNat st.nextPid)
    (afterFork (afterFork st (f1 (childSt st st.fds)))
      (f2 (childSt (afterFork st (f1 (childSt st st.fds))) (afterFork st (f1 (childSt st st.fds))).fds)))
  rw [hz1]
  obtain ⟨z2, hz2⟩ := waitpidM_shape (Int.ofNat (afterFork st (f1 (childSt st st.fds))).nextPid)
    {afterFork (afterFork st (f1 (childSt st st.fds)))
      (f2 (childSt (afterFork st (f1 (childSt st st.fds))) (afterFork st (f1 (childSt st st.fds))).fds)) with
      zombies := z1}
  rw [hz2]
  simp only [childSt, afterFork] at hA1 hA2 hA3 hB1 hB2 hB3
  refine ⟨?_, rfl, tA ++ tB, ?_⟩
  · exact Nat.le_trans (Nat.le_trans (Nat.le_succ _) hA1) (Nat.le_trans (Nat.le_succ _) hB1)
  · exact hB3.trans (by rw [hA3, List.append_assoc])

theorem waitpidM_nextPid (p : Int) (st : St) : (waitpidM p st).2.nextPid = st.nextPid := by
  obtain ⟨z, h⟩ := waitpidM_shape p st
  rw [h]

theorem waitpidM_curPid (p : Int) (st : St) : (waitpidM p st).2.curPid = st.curPid := by
  obtain ⟨z, h⟩ := waitpidM_shape p st
  rw [h]

theorem waitpidM_events (p : Int) (st : St) : (waitpidM p st).2.events = st.events := by
  obtain ⟨z, h⟩ := waitpidM_shape p st
  rw [h]

theorem waitpidM_fds (p : Int) (st : St) : (waitpidM p st).2.fds = st.fds := by
  obtain ⟨z, h⟩ := waitpidM_shape p st
  rw [h]

theorem waitpidM_cwd (p : Int) (st : St) : (waitpidM p st).2.cwd = st.cwd := by
  obtain ⟨z, h⟩ := waitpidM_shape p st
  rw [h]

theorem waitpidR_nextPid (r : Option Int) (st : St) : (waitpidR r st).2.nextPid = st.nextPid := by
  obtain ⟨z, h⟩ := waitpidR_shape r st
  rw [h]

theorem waitpidR_curPid (r : Option Int) (st : St) : (waitpidR r st).2.curPid = st.curPid := by
  obtain ⟨z, h⟩ := waitpidR_shape r st
  rw [h]

theorem waitpidR_events (r : Option Int) (st : St) : (waitpidR r st).2.events = st.events := by
  obtain ⟨z, h⟩ := waitpidR_shape r st
  rw [h]

theorem waitpidR_fds (r : Option Int) (st : St) : (waitpidR r st).2.fds = st.fds := by
  obtain ⟨z, h⟩ := waitpidR_shape r st
  rw [h]

theorem waitpidR_cwd (r : Option Int) (st : St) : (waitpidR r st).2.cwd = st.cwd := by
  obtain ⟨z, h⟩ := waitpidR_shape r st
  rw [h]

theorem extends_pipeOp (f1 f2 : St → Out) (h1 : ∀ st, Extends st (f1 st))
    (h2 : ∀ st, Extends st (f2 st)) (st : St) : Extends st (pipeOp f1 f2 st) := by
  obtain ⟨hA1, hA2, tA, hA3⟩ := h1 (childSt (pipeSt1 st) (pipeLeftFds st))
  obtain ⟨hB1, hB2, tB, hB3⟩ := h2 (pipeParentSt st (f1 (childSt (pipeSt1 st) (pipeLeftFds st))))
  cases ho : f2 (pipeParentSt st (f1 (childSt (pipeSt1 st) (pipeLeftFds st)))) with
  | died st2 =>
    rw [ho] at hB1 hB2 hB3
    unfold pipeOp
    rw [ho]
    refine ⟨Nat.le_trans (Nat.le_trans (Nat.le_succ _) hA1) hB1, hB2, tA ++ tB, ?_⟩
    exact hB3.trans ((congrArg (fun l => l ++ tB) hA3).trans (List.append_assoc _ _ _))
  | ret r2 st2 =>
    rw [ho] at hB1 hB2 hB3
    unfold pipeOp
    rw [ho]
    refine ⟨?_, ?_, tA ++ tB, ?_⟩
    · show st.nextPid ≤ ((waitpidR r2 (waitpidM (Int.ofNat st.nextPid) st2).2).2).nextPid
      rw [waitpidR_nextPid, waitpidM_nextPid]
      exact Nat.le_trans (Nat.le_trans (Nat.le_succ _) hA1) hB1
    · show ((waitpidR r2 (waitpidM (Int.ofNat st.nextPid) st2).2).2).curPid = st.curPid
      rw [waitpidR_curPid, waitpidM_curPid]
      exact hB2
    · show ((waitpidR r2 (waitpidM (Int.ofNat st.nextPid) st2).2).2).events = st.events ++ (tA ++ tB)
      rw [waitpidR_events, waitpidM_events]
      exact hB3.trans ((congrArg (fun l => l ++ tB) hA3).trans (List.append_assoc _ _ _))

theorem extends_parse_command (w : World) (c : Cmd) (b : Bool) (st : St) :
    Extends st (parse_command w c b st) := by
  induction c generalizing b st with
  | leaf id s => exact extends_parse_simple w id s b st
  | node op c1 c2 ih1 ih2 =>
    cases op with
    | sequential => exact extends_seqOp _ _ (fun st1 => ih1 false st1) (fun st1 => ih2 false st1) st
    | parallel => exact extends_parOp _ _ (fun st1 => ih1 false st1) (fun st1 => ih2 false st1) st
    | pipe => exact extends_pipeOp _ _ (fun st1 => ih1 false st1) (fun st1 => ih2 true st1) st
    | condNZero => exact extends_condNZOp _ _ (fun st1 => ih1 false st1) (fun st1 => ih2 false st1) st
    | condZero => exact extends_condZOp _ _ (fun st1 => ih1 false st1) (fun st1 => ih2 false st1) st
    | dummy => exact ⟨Nat.le_refl _, rfl, [], (List.append_nil _).symm⟩

/-- Claim C8, counterexample: the claim says the create-with-0644 retry is
attempted only when the intent implies writing and the open failed because
the path does not exist, every other failure being fatal.  But on a
read-only redirect from a missing path — a non-writing intent — the code
still retries with `O_CREAT` and succeeds instead of aborting. -/
theorem C8_counterexample :
    redirectOpen wAbsent (some ("f".data)) .rdonly = .ok true (.fileCreated ("f".data)) ∧
    redirectOpen wAbsent (some ("f".data)) .rdonly ≠ .fatal := by
  decide

/-- Claim C8, amended: the retry with `O_CREAT | O_TRUNC | O_WRONLY, 0644`
is attempted after any failed first open, regardless of the intent and of
the failure cause; the process aborts fatally exactly when the retry also
fails. -/
theorem C8_thm (w : World) (p : CStr) (flag : RFlag) :
    (w.pathState p = .present → redirectOpen w (some p) flag = .ok false (.file p flag)) ∧
    (w.pathState p = .absent → redirectOpen w (some p) flag = .ok true (.fileCreated p)) ∧
    (w.pathState p = .forbidden → redirectOpen w (some p) flag = .fatal) := by
  refine ⟨fun h => ?_, fun h => ?_, fun h => ?_⟩ <;> simp [redirectOpen, h]

theorem C8_witness :
    wAbsent.pathState ("g".data) = .absent ∧
    redirectOpen wAbsent (some ("g".data)) .wronly = .ok true (.fileCreated ("g".data)) :=
  ⟨rfl, (C8_thm wAbsent ("g".data) .wronly).2.1 rfl⟩

/-- Claim C10: under the precondition that the argument string contains an
`=` — which `parse_simple` establishes, calling `split_env_command` only
when the verb's second word part is the literal `=`, so that the resolved
verb word contains `=` — the unbounded scan stays inside the string (the
model returns `some` rather than the out-of-bounds `none`) and splits it at
the first `=` into name and value. -/
theorem C10_thm :
    (∀ verb : Word, verb.rest.head? = some ("=".data) → '=' ∈ get_word verb) ∧
    (∀ cmd : CStr, '=' ∈ cmd →
      ∃ pr, split_env_command cmd = some pr ∧ cmd = pr.1 ++ '=' :: pr.2 ∧ '=' ∉ pr.1) := by
  constructor
  · intro verb h
    unfold get_word
    cases hr : verb.rest with
    | nil => rw [hr] at h; simp at h
    | cons p t =>
      rw [hr] at h
      simp only [List.head?] at h
      cases h
      apply List.mem_append_right
      show '=' ∈ "=".data ++ t.flatten
      apply List.mem_append_left
      decide
  · intro cmd
    induction cmd with
    | nil => intro h; simp at h
    | cons c rest ih =>
      intro h
      by_cases hc : c = '='
      · subst hc
        exact ⟨([], rest), by simp [split_env_command], rfl, by simp⟩
      · have hm : '=' ∈ rest := by
          rcases List.mem_cons.mp h with h1 | h1
          · exact absurd h1.symm hc
          · exact h1
        obtain ⟨pr, hsp, hcat, hnm⟩ := ih hm
        refine ⟨(c :: pr.1, pr.2), ?_, ?_, ?_⟩
        · simp [split_env_command, hc, hsp]
        · simpa using congrArg (fun l => c :: l) hcat
        · intro hmem
          rcases List.mem_cons.mp hmem with h1 | h1
          · exact hc h1.symm
          · exact hnm h1

theorem C10_witness :
    ('=' ∈ get_word ⟨"AB".data, ["=".data, "cd".data]⟩) ∧
    (∃ pr, split_env_command ("AB=cd".data) = some pr ∧
      "AB=cd".data = pr.1 ++ '=' :: pr.2 ∧ '=' ∉ pr.1) :=
  ⟨C10_thm.1 ⟨"AB".data, ["=".data, "cd".data]⟩ rfl, C10_thm.2 ("AB=cd".data) (by decide)⟩

/-- Claim C9 (code bug): on `cd` to a directory it cannot change to, the
code does return failure and leaves the working directory alone, but it
prints nothing: `shell_cd` declares its return type `bool`, so `chdir`'s
`-1` collapses to `true` (the int 1), and the caller's `if (ret < 0)`
branch holding the `strerror` print is unreachable.  This theorem runs the
failing input: result `EXIT_FAILURE`, working directory unchanged, and an
empty print log where the claim requires the system error message on the
error stream. -/
theorem C9_thm :
    parse_command wNoCd (.leaf 0 cdCmd) false initSt =
      .ret (some EXIT_FAILURE) {initSt with events := [.ranLeaf 0 0 fds0]} ∧
    printedMsgs (parse_command wNoCd (.leaf 0 cdCmd) false initSt).st.events = [] ∧
    (parse_command wNoCd (.leaf 0 cdCmd) false initSt).st.cwd = initSt.cwd := by
  decide

/-- Claim C2, counterexample: with a left subtree whose command exits with
status 2 — a non-zero failure — the claim requires the right subtree to
run; but `OP_CONDITIONAL_NZERO` tests `ret == EXIT_FAILURE`, i.e. exactly
1, so the right subtree is not evaluated (no entry event for leaf 1) and
the node returns `EXIT_SUCCESS` rather than the left side's status. -/
theorem C2_counterexample :
    (parse_command (wStat 2) (.leaf 0 (simpleCmd ("a"))) false initSt).res = some 2 ∧
    (parse_command (wStat 2) (.node .condNZero (.leaf 0 (simpleCmd ("a"))) (.leaf 1 (simpleCmd ("pwd")))) false initSt).res = some EXIT_SUCCESS ∧
    ranCount 1 (parse_command (wStat 2) (.node .condNZero (.leaf 0 (simpleCmd ("a"))) (.leaf 1 (simpleCmd ("pwd")))) false initSt).st.events = 0 := by
  decide

/-- Claim C2, amended: for `IfFailed(A, B)`, B is evaluated if and only if
A's result is exactly `EXIT_FAILURE` (the int 1) — in which case the node's
outcome is B's outcome — and for every other result of A (success, any
other non-zero status, the shell-exit sentinel, or an unspecified int) the
node returns `EXIT_SUCCESS` without evaluating B. -/
theorem C2_thm (w : World) (A B : Cmd) (st stA : St) (r : Option Int)
    (hA : parse_command w A false st = .ret r stA) :
    (r = some EXIT_FAILURE →
      parse_command w (.node .condNZero A B) false st = parse_command w B false stA) ∧
    (r ≠ some EXIT_FAILURE →
      parse_command w (.node .condNZero A B) false st = .ret (some EXIT_SUCCESS) stA) := by
  constructor <;> intro h
  · simp only [parse_command, condNZOp, hA]
    rw [if_pos h]
  · simp only [parse_command, condNZOp, hA]
    rw [if_neg h]

theorem C2_witness :
    parse_command (wStat 1) (.node .condNZero (.leaf 0 (simpleCmd ("a"))) (.leaf 1 (simpleCmd ("pwd")))) false initSt
      = parse_command (wStat 1) (.leaf 1 (simpleCmd ("pwd"))) false
          (parse_command (wStat 1) (.leaf 0 (simpleCmd ("a"))) false initSt).st :=
  (C2_thm (wStat 1) (.leaf 0 (simpleCmd ("a"))) (.leaf 1 (simpleCmd ("pwd"))) initSt
      (parse_command (wStat 1) (.leaf 0 (simpleCmd ("a"))) false initSt).st (some 1)
      (by decide)).1 (by decide)

/-- Claim C3, counterexample: with a left subtree whose command exits with
status 2, the claim requires the node to return A's own failure status (2)
without evaluating B; the code does skip B, but returns the constant
`EXIT_FAILURE` (1), not 2. -/
theorem C3_counterexample :
    (parse_command (wStat 2) (.leaf 0 (simpleCmd ("a"))) false initSt).res = some 2 ∧
    (parse_command (wStat 2) (.node .condZero (.leaf 0 (simpleCmd ("a"))) (.leaf 1 (simpleCmd ("pwd")))) false initSt).res = some EXIT_FAILURE ∧
    some EXIT_FAILURE ≠ some (2 : Int) := by
  decide

/-- Claim C3, amended: for `IfSucceeded(A, B)`, B is evaluated if and only
if A's result is exactly `EXIT_SUCCESS` (0) — in which case the node's
outcome is B's outcome — and for every other result of A the node returns
the constant `EXIT_FAILURE` (1), not A's own failure status, without
evaluating B. -/
theorem C3_thm (w : World) (A B : Cmd) (st stA : St) (r : Option Int)
    (hA : parse_command w A false st = .ret r stA) :
    (r = some EXIT_SUCCESS →
      parse_command w (.node .condZero A B) false st = parse_command w B false stA) ∧
    (r ≠ some EXIT_SUCCESS →
      parse_command w (.node .condZero A B) false st = .ret (some EXIT_FAILURE) stA) := by
  constructor <;> intro h
  · simp only [parse_command, condZOp, hA]
    rw [if_pos h]
  · simp only [parse_command, condZOp, hA]
    rw [if_neg h]

theorem C3_witness :
    parse_command (wStat 0) (.node .condZero (.leaf 0 (simpleCmd ("a"))) (.leaf 1 (simpleCmd ("pwd")))) false initSt
      = parse_command (wStat 0) (.leaf 1 (simpleCmd ("pwd"))) false
          (parse_command (wStat 0) (.leaf 0 (simpleCmd ("a"))) false initSt).st :=
  (C3_thm (wStat 0) (.leaf 0 (simpleCmd ("a"))) (.leaf 1 (simpleCmd ("pwd"))) initSt
      (parse_command (wStat 0) (.leaf 0 (simpleCmd ("a"))) false initSt).st (some 0)
      (by decide)).1 (by decide)

/-- Claim C1, counterexample: the claim says every operator node propagates
the shell-exit sentinel unchanged.  With `exit` as the left subtree of an
`IfFailed` node, the left evaluation yields the sentinel, but the node
returns `EXIT_SUCCESS` — the sentinel is swallowed, not propagated. -/
theorem C1_counterexample :
    (parse_command w0 (.leaf 0 (simpleCmd ("exit"))) false initSt).res = some SHELL_EXIT ∧
    (parse_command w0 (.node .condNZero (.leaf 0 (simpleCmd ("exit"))) (.leaf 1 (simpleCmd ("pwd")))) false initSt).res = some EXIT_SUCCESS ∧
    some EXIT_SUCCESS ≠ some SHELL_EXIT := by
  decide

/-- Claim C1, amended: only Sequential propagates the sentinel — when its
left subtree returns `SHELL_EXIT` it returns `SHELL_EXIT` without touching
the right subtree.  The conditionals swallow it without running the right
subtree: `IfFailed` returns `EXIT_SUCCESS` and `IfSucceeded` returns
`EXIT_FAILURE` (the sentinel matches neither tested constant).  Parallel
always returns `EXIT_SUCCESS` whatever its forked children produced, and
Pipe returns a waited-for exit byte or an unspecified int — neither ever
the (negative) sentinel. -/
theorem C1_thm :
    (∀ (w : World) (A B : Cmd) (st stA : St),
      parse_command w A false st = .ret (some SHELL_EXIT) stA →
      parse_command w (.node .sequential A B) false st = .ret (some SHELL_EXIT) stA) ∧
    (∀ (w : World) (A B : Cmd) (st stA : St),
      parse_command w A false st = .ret (some SHELL_EXIT) stA →
      parse_command w (.node .condNZero A B) false st = .ret (some EXIT_SUCCESS) stA) ∧
    (∀ (w : World) (A B : Cmd) (st stA : St),
      parse_command w A false st = .ret (some SHELL_EXIT) stA →
      parse_command w (.node .condZero A B) false st = .ret (some EXIT_FAILURE) stA) ∧
    (∀ (w : World) (A B : Cmd) (st : St),
      (parse_command w (.node .parallel A B) false st).res = some EXIT_SUCCESS) ∧
    (∀ (w : World) (A B : Cmd) (st : St),
      (parse_command w (.node .pipe A B) false st).res = none ∨
      ∃ n : Nat, (parse_command w (.node .pipe A B) false st).res = some (Int.ofNat n)) := by
  refine ⟨?_, ?_, ?_, ?_, ?_⟩
  · intro w A B st stA hA
    simp only [parse_command, seqOp, hA]
    exact if_pos trivial
  · intro w A B st stA hA
    simp only [parse_command, condNZOp, hA]
    rw [if_neg (by decide)]
  · intro w A B st stA hA
    simp only [parse_command, condZOp, hA]
    rw [if_neg (by decide)]
  · intro w A B st
    simp only [parse_command, parOp, Out.res]
  · intro w A B st
    cases ho : parse_command w B true (pipeParentSt st (parse_command w A false (childSt (pipeSt1 st) (pipeLeftFds st)))) with
    | died st2 =>
      left
      simp only [parse_command, pipeOp]
      rw [ho]
      rfl
    | ret r2 st2 =>
      cases hw : (waitpidR r2 (waitpidM (Int.ofNat st.nextPid) st2).2).1 with
      | none =>
        left
        simp only [parse_command, pipeOp]
        rw [ho]
        show ((waitpidR r2 (waitpidM (Int.ofNat st.nextPid) st2).2).1.map Int.ofNat) = none
        rw [hw]
        rfl
      | some n =>
        right
        refine ⟨n, ?_⟩
        simp only [parse_command, pipeOp]
        rw [ho]
        show ((waitpidR r2 (waitpidM (Int.ofNat st.nextPid) st2).2).1.map Int.ofNat) = some (Int.ofNat n)
        rw [hw]
        rfl

theorem C1_witness :
    parse_command w0 (.node .sequential (.leaf 0 (simpleCmd ("exit"))) (.leaf 1 (simpleCmd ("pwd")))) false initSt
      = .ret (some SHELL_EXIT) (parse_command w0 (.leaf 0 (simpleCmd ("exit"))) false initSt).st :=
  C1_thm.1 w0 (.leaf 0 (simpleCmd ("exit"))) (.leaf 1 (simpleCmd ("pwd"))) initSt
    (parse_command w0 (.leaf 0 (simpleCmd ("exit"))) false initSt).st (by decide)

/-- Evaluation of a leaf whose simple command is an external command with
no redirections (the verb is none of the built-ins and no assignment): in
pipe-right position the forked child is returned as a pid and left
unreaped, otherwise it is waited for and its exit byte returned. -/
theorem parse_simple_external (w : World) (id : Nat) (s : simple_command) (st : St) (k : Nat)
    (hin : s.inw = none) (hout : s.out = none) (herr : s.err = none) (hio : s.io_flags = 0)
    (hxq : ¬(get_word s.verb = "exit".data ∨ get_word s.verb = "quit".data))
    (hcd : ¬(get_word s.verb = "cd".data)) (hpwd : ¬(get_word s.verb = "pwd".data))
    (henv : ¬(s.verb.rest.head? = some ("=".data)))
    (hexec : w.execOf (get_word s.verb) = .runs k) :
    parse_simple w id s false st =
      .ret (some (Int.ofNat (k % 256)))
        {st with nextPid := st.nextPid + 1,
                 events := st.events ++ [.ranLeaf st.curPid id st.fds]} ∧
    parse_simple w id s true st =
      .ret (some (Int.ofNat st.nextPid))
        {st with nextPid := st.nextPid + 1,
                 zombies := st.zombies ++ [(st.nextPid, some (k % 256))],
                 events := st.events ++ [.ranLeaf st.curPid id st.fds]} := by
  have hio' : ∀ fo fe fds, ioRedirs w s fo fe fds = some fds := fun fo fe fds => by
    simp [ioRedirs, hio, hout, herr]
  constructor <;>
  · simp only [parse_simple, hin, hio', hexec]
    rw [if_neg (by simpa using hxq), if_neg (by simpa using hcd),
      if_neg (by simpa using hpwd), if_neg (by simpa using henv)]
    simp [exit_func]

/-- Claim C4: for a leaf running an external command (here: no redirections,
a verb that is none of the built-ins and no assignment), if the leaf is the
direct right child of a pipe node the evaluator returns the forked child's
process id at once and leaves the child unreaped in the zombie list; in
every other position it waits for that child and returns the child's
translated exit status, so with no redirection the result equals the
launched process's real exit status (its exit byte). -/
theorem C4_thm (w : World) (id : Nat) (s : simple_command) (st : St) (k : Nat)
    (hin : s.inw = none) (hout : s.out = none) (herr : s.err = none) (hio : s.io_flags = 0)
    (hxq : ¬(get_word s.verb = "exit".data ∨ get_word s.verb = "quit".data))
    (hcd : ¬(get_word s.verb = "cd".data)) (hpwd : ¬(get_word s.verb = "pwd".data))
    (henv : ¬(s.verb.rest.head? = some ("=".data)))
    (hexec : w.execOf (get_word s.verb) = .runs k) :
    parse_simple w id s false st =
      .ret (some (Int.ofNat (k % 256)))
        {st with nextPid := st.nextPid + 1,
                 events := st.events ++ [.ranLeaf st.curPid id st.fds]} ∧
    parse_simple w id s true st =
      .ret (some (Int.ofNat st.nextPid))
        {st with nextPid := st.nextPid + 1,
                 zombies := st.zombies ++ [(st.nextPid, some (k % 256))],
                 events := st.events ++ [.ranLeaf st.curPid id st.fds]} :=
  parse_simple_external w id s st k hin hout herr hio hxq hcd hpwd henv hexec

theorem C4_witness :
    parse_simple (wStat 7) 0 (simpleCmd ("a")) false initSt =
      .ret (some (Int.ofNat (7 % 256)))
        {initSt with nextPid := initSt.nextPid + 1,
                     events := initSt.events ++ [.ranLeaf initSt.curPid 0 initSt.fds]} :=
  (C4_thm (wStat 7) 0 (simpleCmd ("a")) initSt 7 rfl rfl rfl rfl (by decide) (by decide)
    (by decide) (by decide) (by decide)).1

/-- Claim C7: whenever a leaf evaluation returns — whatever branch it took
(exit/quit short-circuit, cd, pwd, assignment, external command, pipe-right
or not) — the three standard-stream slots of the final state are exactly
those of the entry state: every path runs the `exit_func` epilogue, which
restores the copies saved before any redirection.  Paths on which the
process aborts through `DIE` do not return and are not constrained. -/
theorem C7_thm (w : World) (id : Nat) (s : simple_command) (b : Bool) (st : St)
    (r : Option Int) (st' : St) (h : parse_simple w id s b st = .ret r st') :
    st'.fds = st.fds := by
  simp only [parse_simple, exit_func] at h
  repeat' split at h
  all_goals first
  | (cases h; rfl)
  | simp at h

theorem C7_witness :
    (parse_simple (wStat 0) 3 (simpleCmd ("pwd")) false initSt).st.fds = initSt.fds :=
  C7_thm (wStat 0) 3 (simpleCmd ("pwd")) false initSt (some 0)
    (parse_simple (wStat 0) 3 (simpleCmd ("pwd")) false initSt).st (by decide)

theorem waitpidM_head (p : Nat) (s : Option Nat) (rest : List (Nat × Option Nat)) (st : St)
    (hp : 1 ≤ p) (hstz : st.zombies = (p, s) :: rest) :
    waitpidM (Int.ofNat p) st = (s, {st with zombies := rest}) := by
  have hple : ¬ ((Int.ofNat p) ≤ 0) := by
    rw [Int.ofNat_eq_coe]
    omega
  unfold waitpidM
  rw [if_neg hple, hstz]
  simp [lookupZ, removeZ, hstz]

/-- Claim C6: for `Parallel(A, B)`, A runs in a child forked at
`st.nextPid` and B in a second, distinct child (first conjunct), each child
exits with its own result — both appear in the zombie list with their exit
bytes (second conjunct) — and the parent waits for both pids
unconditionally and returns `EXIT_SUCCESS` whatever the children's
statuses: the final state has an empty zombie list and the result is
success for every A and B (third conjunct). -/
theorem C6_thm (w : World) (A B : Cmd) (st : St) (o1 o2 : Out)
    (hz : st.zombies = []) (hp : 1 ≤ st.nextPid)
    (ho1 : o1 = parse_command w A false (childSt st st.fds))
    (ho2 : o2 = parse_command w B false (childSt (afterFork st o1) (afterFork st o1).fds)) :
    st.nextPid < (afterFork st o1).nextPid ∧
    (afterFork (afterFork st o1) o2).zombies
      = [(st.nextPid, exitStat o1), ((afterFork st o1).nextPid, exitStat o2)] ∧
    parse_command w (.node .parallel A B) false st =
      .ret (some EXIT_SUCCESS) {afterFork (afterFork st o1) o2 with zombies := []} := by
  have hext1 := (extends_parse_command w A false (childSt st st.fds)).1
  rw [← ho1] at hext1
  have hp2 : 1 ≤ (afterFork st o1).nextPid :=
    Nat.le_trans (Nat.succ_le_succ (Nat.zero_le _)) hext1
  refine ⟨Nat.lt_of_lt_of_le (Nat.lt_succ_self _) hext1, by simp [afterFork, hz], ?_⟩
  have hw1 : waitpidM (Int.ofNat st.nextPid) (afterFork (afterFork st o1) o2)
      = (exitStat o1, {afterFork (afterFork st o1) o2 with
          zombies := [((afterFork st o1).nextPid, exitStat o2)]}) :=
    waitpidM_head _ _ _ _ hp (by simp [afterFork, hz])
  have hw2 : waitpidM (Int.ofNat (afterFork st o1).nextPid)
      {afterFork (afterFork st o1) o2 with
        zombies := [((afterFork st o1).nextPid, exitStat o2)]}
      = (exitStat o2, {afterFork (afterFork st o1) o2 with zombies := []}) :=
    waitpidM_head _ _ _ _ hp2 rfl
  simp only [parse_command, parOp, ← ho1, ← ho2, hw1, hw2]

theorem C6_witness :
    initSt.nextPid < (afterFork initSt parWitLeft).nextPid ∧
    (afterFork (afterFork initSt parWitLeft) parWitRight).zombies
      = [(initSt.nextPid, exitStat parWitLeft),
         ((afterFork initSt parWitLeft).nextPid, exitStat parWitRight)] ∧
    parse_command (wStat 1) (.node .parallel (.leaf 0 (simpleCmd ("a"))) (.leaf 1 (simpleCmd ("a")))) false initSt
      = .ret (some EXIT_SUCCESS)
          {afterFork (afterFork initSt parWitLeft) parWitRight with zombies := []} :=
  C6_thm (wStat 1) (.leaf 0 (simpleCmd ("a"))) (.leaf 1 (simpleCmd ("a"))) initSt
    parWitLeft parWitRight rfl (by decide) rfl rfl

/-- Claim C5, counterexample: the claim says `Pipe(A, B)` waits on the pid
produced by the right-side evaluation and returns the right side's
translated exit status.  With `pwd` — a built-in — as the direct right
child, the right-side evaluation returns an exit status (0), not a pid; the
final `waitpid` is a process-group wait that fails, its wait status is
never filled in, and the node's result is the unspecified int, not the
right side's success. -/
theorem C5_counterexample :
    (parse_command (wStat 3) (.node .pipe (.leaf 0 (simpleCmd ("a"))) (.leaf 1 (simpleCmd ("pwd")))) false initSt).res = none ∧
    (parse_command (wStat 3) (.leaf 1 (simpleCmd ("pwd"))) false initSt).res = some EXIT_SUCCESS ∧
    (none : Option Int) ≠ some EXIT_SUCCESS := by
  decide

/-- Claim C5, amended: for `Pipe(A, B)` whose direct right child B is an
external-command leaf (so that the right-side evaluation really returns the
pid of a spawned process), the node returns the right side's translated
exit status (its exit byte); the right subtree runs in the parent process
with stdin bound to the pipe's read end (its entry event carries the
parent's pid and the rebound stdin); the parent waits for the left child
and for the right side's pid (no zombie remains); and the parent's three
standard streams are restored.  When the right-side evaluation returns an
ordinary status instead of a pid, the returned value is unspecified (see
the counterexample). -/
theorem C5_thm (w : World) (A : Cmd) (idB : Nat) (sB : simple_command) (st : St) (k : Nat)
    (hz : st.zombies = []) (hp : 1 ≤ st.nextPid)
    (hin : sB.inw = none) (hout : sB.out = none) (herr : sB.err = none) (hio : sB.io_flags = 0)
    (hxq : ¬(get_word sB.verb = "exit".data ∨ get_word sB.verb = "quit".data))
    (hcd : ¬(get_word sB.verb = "cd".data)) (hpwd : ¬(get_word sB.verb = "pwd".data))
    (henv : ¬(sB.verb.rest.head? = some ("=".data)))
    (hexec : w.execOf (get_word sB.verb) = .runs k) :
    (parse_command w (.node .pipe A (.leaf idB sB)) false st).res = some (Int.ofNat (k % 256)) ∧
    (parse_command w (.node .pipe A (.leaf idB sB)) false st).st.fds = st.fds ∧
    (parse_command w (.node .pipe A (.leaf idB sB)) false st).st.zombies = [] ∧
    Ev.ranLeaf st.curPid idB {st.fds with fdStdin := .pipeRd st.nextPipe}
      ∈ (parse_command w (.node .pipe A (.leaf idB sB)) false st).st.events := by
  have hfold : pipeParentSt st (parse_command w A false (childSt (pipeSt1 st) (pipeLeftFds st)))
      = pipeRightSt w A st := rfl
  have hext := (extends_parse_command w A false (childSt (pipeSt1 st) (pipeLeftFds st))).1
  have hp2 : 1 ≤ (pipeRightSt w A st).nextPid :=
    Nat.le_trans (Nat.succ_le_succ (Nat.zero_le _)) hext
  have hzP : (pipeRightSt w A st).zombies
      = [(st.nextPid, exitStat (parse_command w A false (childSt (pipeSt1 st) (pipeLeftFds st))))] := by
    simp [pipeRightSt, pipeParentSt, afterFork, pipeSt1, hz]
  have hB := (parse_simple_external w idB sB (pipeRightSt w A st) k hin hout herr hio hxq hcd hpwd henv hexec).2
  have hw1 : waitpidM (Int.ofNat st.nextPid)
      {pipeRightSt w A st with
        nextPid := (pipeRightSt w A st).nextPid + 1,
        zombies := (pipeRightSt w A st).zombies ++ [((pipeRightSt w A st).nextPid, some (k % 256))],
        events := (pipeRightSt w A st).events ++ [.ranLeaf (pipeRightSt w A st).curPid idB (pipeRightSt w A st).fds]}
      = (exitStat (parse_command w A false (childSt (pipeSt1 st) (pipeLeftFds st))),
         {pipeRightSt w A st with
           nextPid := (pipeRightSt w A st).nextPid + 1,
           zombies := [((pipeRightSt w A st).nextPid, some (k % 256))],
           events := (pipeRightSt w A st).events ++ [.ranLeaf (pipeRightSt w A st).curPid idB (pipeRightSt w A st).fds]}) :=
    waitpidM_head _ _ _ _ hp (by simp [hzP])
  have hw2 : waitpidM (Int.ofNat (pipeRightSt w A st).nextPid)
      {pipeRightSt w A st with
        nextPid := (pipeRightSt w A st).nextPid + 1,
        zombies := [((pipeRightSt w A st).nextPid, some (k % 256))],
        events := (pipeRightSt w A st).events ++ [.ranLeaf (pipeRightSt w A st).curPid idB (pipeRightSt w A st).fds]}
      = (some (k % 256),
         {pipeRightSt w A st with
           nextPid := (pipeRightSt w A st).nextPid + 1,
           zombies := [],
           events := (pipeRightSt w A st).events ++ [.ranLeaf (pipeRightSt w A st).curPid idB (pipeRightSt w A st).fds]}) :=
    waitpidM_head _ _ _ _ hp2 rfl
  have key : parse_command w (.node .pipe A (.leaf idB sB)) false st
      = .ret (some (Int.ofNat (k % 256)))
          {pipeRightSt w A st with
            fds := ⟨st.fds.fdStdin, st.fds.fdStdout, st.fds.fdStderr⟩,
            nextPid := (pipeRightSt w A st).nextPid + 1,
            zombies := [],
            events := (pipeRightSt w A st).events ++ [.ranLeaf (pipeRightSt w A st).curPid idB (pipeRightSt w A st).fds]} := by
    simp only [parse_command, pipeOp, hfold, hB, waitpidR, hw1, hw2, Option.map]
  refine ⟨?_, ?_, ?_, ?_⟩
  · rw [key]
    rfl
  · rw [key]
    rfl
  · rw [key]
    rfl
  · rw [key]
    exact List.mem_append_right _ (List.mem_singleton.mpr rfl)

theorem C5_witness :
    (parse_command (wStat 9) (.node .pipe (.leaf 0 (simpleCmd ("b"))) (.leaf 1 (simpleCmd ("a")))) false initSt).res = some (Int.ofNat (9 % 256)) ∧
    (parse_command (wStat 9) (.node .pipe (.leaf 0 (simpleCmd ("b"))) (.leaf 1 (simpleCmd ("a")))) false initSt).st.fds = initSt.fds ∧
    (parse_command (wStat 9) (.node .pipe (.leaf 0 (simpleCmd ("b"))) (.leaf 1 (simpleCmd ("a")))) false initSt).st.zombies = [] ∧
    Ev.ranLeaf initSt.curPid 1 {initSt.fds with fdStdin := .pipeRd initSt.nextPipe}
      ∈ (parse_command (wStat 9) (.node .pipe (.leaf 0 (simpleCmd ("b"))) (.leaf 1 (simpleCmd ("a")))) false initSt).st.events :=
  C5_thm (wStat 9) (.leaf 0 (simpleCmd ("b"))) 1 (simpleCmd ("a")) initSt 9 rfl (by decide)
    rfl rfl rfl rfl (by decide) (by decide) (by decide) (by decide) (by decide)
